import Mathlib

/-!
Verification of the `xst` runtime type store (C++ sources under `src/`).

The development shallowly embeds the data model and the operations of the
repository:

* `src/include/Utilities.h` — `round_up_to_nearest_multiple`;
* `src/include/TypeHeader.h`, `src/src/TypeHeader.cc` — type headers and
  structural equality (`TypeHeader::equal_to`, `CompositeHeader::operator==`,
  the `CompositeHeader` constructor);
* `src/include/Field.h` / `src/include/TypeStore.h` — the packed `Field`
  representation;
* `src/include/TypeStore.h`, `src/src/TypeStore.cc` — the store: `declare`,
  `define` for structs and enums, `operator[]`, the `copy_initialize`
  dispatcher, and `with_temporary_allocation`.

Machine integers are modelled as `Nat` with an explicit `% 2 ^ 32` at the
places where the source truncates to `uint32_t` (the metatype cache), and with
`% 2 ^ 64` bounds where `uintptr_t` width matters (the packed `Field`).
-/

namespace Xst

/-- `U32` is `2 ^ 32`: the modulus of the `uint32_t` casts used by the
metatype cache in `src/src/TypeStore.cc`. -/
def U32 : Nat := 2 ^ 32

/-- Unsigned instantiation of `round_up_to_nearest_multiple`
(`src/include/Utilities.h`, lines 13-24) as used with `std::size_t` /
`uint32_t` operands: the `a < 0` branch of the template is unreachable. -/
def roundUpN (a b : Nat) : Nat :=
  let r := a % b
  if r = 0 then a else a + (b - r)

/-- The `round_up_to_nearest_multiple` template of `src/include/Utilities.h`
(lines 13-24) at a signed integer instantiation.  C++ `%` truncates toward
zero, which is `Int.tmod`. -/
def round_up_to_nearest_multiple (a b : Int) : Int :=
  let r := Int.tmod a b
  if r = 0 then a
  else if a < 0 then a - r
  else a + (b - r)

/-- `BuiltinHeader::Tag` (`src/include/TypeHeader.h`, lines 113-115). -/
inductive BuiltinKind where
  | boolean
  | i32
  | i64
  | str
deriving DecidableEq, Repr

/-- The `TypeHeaderTag` enumerators (`src/include/TypeHeader.h`, lines 13-18). -/
def noneTagV : Nat := 0

/-- The `builtin_tag` enumerator value. -/
def builtinTagV : Nat := 1

/-- The `struct_tag` enumerator value. -/
def structTagV : Nat := 2

/-- The `enum_tag` enumerator value. -/
def enumTagV : Nat := 3

mutual
/-- The notional value of a `TypeHeader` (`src/include/TypeHeader.h`).
`none` models the zero raw value; `builtin kind` models a raw value
`kind << 8 | builtin_tag`; `composite tagBits name args` models a pointer to a
heap representation holding the name pointer (`name`, compared by address, so
modelled as a number) and the argument headers, with `tagBits` the low tag
bits stored in the raw value.  Arguments are stored by `raw()` value of
already-built headers, so they are themselves header values. -/
inductive HeaderVal where
  | none
  | builtin (kind : BuiltinKind)
  | composite (tagBits : Nat) (name : Nat) (args : HeaderArgs)

/-- The argument array of a composite header (`arguments_begin` to
`arguments_end` in `src/include/TypeHeader.h`). -/
inductive HeaderArgs where
  | nil
  | cons (head : HeaderVal) (tail : HeaderArgs)
end

/-- Converts a Lean list into an argument array (convenience for examples). -/
def HeaderArgs.ofList : List HeaderVal → HeaderArgs
  | [] => .nil
  | h :: t => .cons h (HeaderArgs.ofList t)

/-- `TypeHeader::tag()` (`src/include/TypeHeader.h`, lines 65-67):
`raw_value & 7`.  A none header has raw value `0`; a builtin raw value is
`kind << 8 | 1`; a composite stores its tag bits in the low bits of the
(8-aligned) representation pointer. -/
def headerTag : HeaderVal → Nat
  | .none => noneTagV
  | .builtin _ => builtinTagV
  | .composite tagBits _ _ => tagBits

/-- The `CompositeHeader<tag>` constructor (`src/include/TypeHeader.h`, lines
183-198).  Line 197 stores `TypeHeader::mask(struct_tag)` regardless of the
template parameter `tag`, so the role requested by the caller is ignored and
every composite header carries `struct_tag` in its raw value. -/
def mkCompositeHeader (_tag : Nat) (name : Nat) (args : HeaderArgs) : HeaderVal :=
  .composite structTagV name args

/-- `StructHeader{name, args}`: `CompositeHeader<struct_tag>`. -/
def mkStructHeader (name : Nat) (args : HeaderArgs) : HeaderVal :=
  mkCompositeHeader structTagV name args

/-- `EnumHeader{name, args}`: `CompositeHeader<enum_tag>`. -/
def mkEnumHeader (name : Nat) (args : HeaderArgs) : HeaderVal :=
  mkCompositeHeader enumTagV name args

mutual
/-- `TypeHeader::equal_to` (`src/src/TypeHeader.cc`, lines 31-51): the fast
path compares raw values (distinct allocations with the same content reach the
slow path; identical objects are structurally identical); then the tags must
match, and the per-variant `operator==` runs: builtins compare raw values
(i.e. kinds); composites (`src/include/TypeHeader.h`, lines 276-289) compare
the name pointers and then the argument sequences element-wise; two none
headers share the raw value `0` and are equal by the fast path. -/
def structEq : HeaderVal → HeaderVal → Bool
  | .none, .none => true
  | .builtin k₁, .builtin k₂ => k₁ == k₂
  | .composite t₁ n₁ a₁, .composite t₂ n₂ a₂ =>
      t₁ == t₂ && (n₁ == n₂ && structEqArgs a₁ a₂)
  | _, _ => false

/-- `std::equal` over two argument ranges, comparing headers with
`TypeHeader::operator==`. -/
def structEqArgs : HeaderArgs → HeaderArgs → Bool
  | .nil, .nil => true
  | .cons x xs, .cons y ys => structEq x y && structEqArgs xs ys
  | _, _ => false
end

mutual
/-- The equality procedure of the source decides equality of notional header
values. -/
theorem structEq_iff_eq : ∀ a b : HeaderVal, structEq a b = true ↔ a = b
  | .none, .none => by simp [structEq]
  | .none, .builtin _ => by simp [structEq]
  | .none, .composite _ _ _ => by simp [structEq]
  | .builtin _, .none => by simp [structEq]
  | .builtin k₁, .builtin k₂ => by simp [structEq]
  | .builtin _, .composite _ _ _ => by simp [structEq]
  | .composite _ _ _, .none => by simp [structEq]
  | .composite _ _ _, .builtin _ => by simp [structEq]
  | .composite t₁ n₁ a₁, .composite t₂ n₂ a₂ => by
      simp [structEq, structEqArgs_iff_eq a₁ a₂, and_assoc]

/-- Element-wise equality of argument arrays decides equality. -/
theorem structEqArgs_iff_eq : ∀ a b : HeaderArgs, structEqArgs a b = true ↔ a = b
  | .nil, .nil => by simp [structEqArgs]
  | .nil, .cons _ _ => by simp [structEqArgs]
  | .cons _ _, .nil => by simp [structEqArgs]
  | .cons x xs, .cons y ys => by
      simp [structEqArgs, structEq_iff_eq x y, structEqArgs_iff_eq xs ys]
end

/-- Structural equality is reflexive. -/
theorem structEq_refl (a : HeaderVal) : structEq a a = true :=
  (structEq_iff_eq a a).mpr rfl

instance : DecidableEq HeaderVal := fun a b =>
  decidable_of_iff (structEq a b = true) (structEq_iff_eq a b)

instance : DecidableEq HeaderArgs := fun a b =>
  decidable_of_iff (structEqArgs a b = true) (structEqArgs_iff_eq a b)

/-- `Field::Field(type, out_of_line)` (`src/include/Field.h`, lines 14-16):
`raw_value = reinterpret_cast<uintptr_t>(type) | out_of_line`.  The type
pointer is modelled as a 64-bit address. -/
def fieldRawValue (typeAddr : Nat) (o : Bool) : Nat :=
  typeAddr ||| (if o then 1 else 0)

/-- `Field::type()` (`src/include/Field.h`, lines 19-21): `raw_value & ~1`,
with `~1` the 64-bit mask `2 ^ 64 - 2`. -/
def fieldTypeOf (raw : Nat) : Nat :=
  raw &&& (2 ^ 64 - 2)

/-- `Field::out_of_line()` (`src/include/Field.h`, lines 24-26):
`(raw_value & 1) != 0`. -/
def fieldOutOfLineOf (raw : Nat) : Bool :=
  decide (raw &&& 1 ≠ 0)

/-- The abstract content of a `Field`: a type-header address and the
out-of-line bit.  The packed representation of `src/include/Field.h` is
proven to round-trip this content (claim C9). -/
structure FieldVal where
  typeAddr : Nat
  out_of_line : Bool
deriving DecidableEq, Repr, Inhabited

/-- The observable content of a defined `Metatype`.  The source
(`src/src/TypeStore.cc`) encodes a definition as a run of `uint32_t` cache
words starting at `cache_begin`: the size, the alignment, and then the field
offsets from index 1 on (the offset of field 0 is always 0 and is implicit;
an enum stores its single `tag_offset` word there).  `offsets` materializes
the full offset sequence, with the implicit leading 0 made explicit. -/
structure MetatypeVal where
  size : Nat
  alignment : Nat
  fields : List FieldVal
  offsets : List Nat
deriving DecidableEq, Repr, Inhabited

/-- One interned header of a store: its canonical address, its value, and its
metatype (`Option.none` while the metatype is declared but not yet defined,
matching `Metatype::defined()` on the zero word). -/
structure StoreEntry where
  addr : Nat
  header : HeaderVal
  meta : Option MetatypeVal
deriving DecidableEq

/-- The `TypeStore` state (`src/include/TypeStore.h`, lines 131-143): the
owned headers and the header-to-metatype table, merged into one association
list keyed by canonical address; `nextAddr` produces fresh addresses for
newly interned headers. -/
structure TypeStore where
  entries : List StoreEntry
  nextAddr : Nat
deriving DecidableEq

/-- A lookup by structural key, as `metatype.find(DereferencingKey{...})`
does: `std::equal_to<DereferencingKey>` compares the pointed-to headers with
`TypeHeader::operator==`. -/
def findEntry (st : TypeStore) (h : HeaderVal) : Option StoreEntry :=
  st.entries.find? (fun e => structEq e.header h)

/-- Membership of a structural key in the store's table. -/
def internedB (st : TypeStore) (h : HeaderVal) : Bool :=
  st.entries.any (fun e => structEq e.header h)

/-- Resolves a canonical address to the interned header stored there. -/
def lookupHeaderAt (st : TypeStore) (a : Nat) : Option HeaderVal :=
  (st.entries.find? (fun e => e.addr == a)).map (fun e => e.header)

/-- `TypeStore::declare` (`src/include/TypeStore.h`, lines 160-177): look the
incoming header up by structural key; if present, return the interned
pointer and drop the incoming header; otherwise take ownership, install an
empty (undefined) metatype, and return the fresh pointer. -/
def declare (st : TypeStore) (h : HeaderVal) : Nat × TypeStore :=
  match findEntry st h with
  | some e => (e.addr, st)
  | Option.none =>
      (st.nextAddr,
        { entries := st.entries ++ [⟨st.nextAddr, h, Option.none⟩],
          nextAddr := st.nextAddr + 1 })

/-- `TypeStore::size(BuiltinHeader const*)` (`src/src/TypeStore.cc`, lines
200-211; the source returns `alignof` of each scalar, which coincides with
`sizeof` for these types on a 64-bit host): 1, 4, 8, 8. -/
def builtinSize : BuiltinKind → Nat
  | .boolean => 1
  | .i32 => 4
  | .i64 => 8
  | .str => 8

/-- `TypeStore::alignment(BuiltinHeader const*)` (`src/src/TypeStore.cc`,
lines 226-237): 1, 4, 8, 8. -/
def builtinAlign : BuiltinKind → Nat
  | .boolean => 1
  | .i32 => 4
  | .i64 => 8
  | .str => 8

/-- `TypeStore::size(TypeHeader const*)` (`src/src/TypeStore.cc`, lines
187-198): 0 for a none header, the scalar size for a builtin, and the
metatype size for a composite.  The composite accessor
(`TypeStore::size(CompositeHeader const*)`, declared in
`src/include/TypeStore.h` line 253) has no body under `src/`; per the spec it
"delegates to the type" through the metatype table, and the packed `Metatype`
accessors of `src/include/TypeStore.h` (lines 79-86) read 0 from an undefined
metatype word, so an interned-but-undefined composite reads size 0 here. -/
def sizeOfHeader (st : TypeStore) (h : HeaderVal) : Nat :=
  match h with
  | .none => 0
  | .builtin k => builtinSize k
  | .composite _ _ _ =>
      match findEntry st h with
      | some e =>
          match e.meta with
          | some m => m.size
          | Option.none => 0
      | Option.none => 0

/-- `TypeStore::alignment(TypeHeader const*)` (`src/src/TypeStore.cc`, lines
213-224): 0 for a none header (line 216), the scalar alignment for a builtin,
and the metatype alignment for a composite (accessor modelled as in
`sizeOfHeader`). -/
def alignOfHeader (st : TypeStore) (h : HeaderVal) : Nat :=
  match h with
  | .none => 0
  | .builtin k => builtinAlign k
  | .composite _ _ _ =>
      match findEntry st h with
      | some e =>
          match e.meta with
          | some m => m.alignment
          | Option.none => 0
      | Option.none => 0

/-- `TypeStore::size(Field const&)` (`src/include/TypeStore.h`, lines
258-260): `sizeof(void*)` = 8 when out-of-line, else the size of the field's
type (the field's type pointer is resolved through the store). -/
def fieldSize (st : TypeStore) (f : FieldVal) : Nat :=
  if f.out_of_line then 8
  else
    match lookupHeaderAt st f.typeAddr with
    | some h => sizeOfHeader st h
    | Option.none => 0

/-- `TypeStore::alignment(Field const&)` (`src/include/TypeStore.h`, lines
294-296): `alignof(void*)` = 8 when out-of-line, else the alignment of the
field's type. -/
def fieldAlign (st : TypeStore) (f : FieldVal) : Nat :=
  if f.out_of_line then 8
  else
    match lookupHeaderAt st f.typeAddr with
    | some h => alignOfHeader st h
    | Option.none => 0

/-- `TypeStore::stride` (`src/include/TypeStore.h`, lines 302-305):
`round_up(size, alignment)`, clamped below by 1. -/
def strideOfHeader (st : TypeStore) (h : HeaderVal) : Nat :=
  let x := roundUpN (sizeOfHeader st h) (alignOfHeader st h)
  if x < 1 then 1 else x

/-- The loop body of the free function `offsets` (`src/src/TypeStore.cc`,
lines 47-59): `prev` is `result.at(i - 1)`, `fprev` is `fields[i - 1]`, and
the list argument holds `fields[i ..]`; each pushed entry is
`static_cast<uint32_t>(round_up(prev + size(fields[i-1]), alignment(fields[i])))`. -/
def offsetsRest (st : TypeStore) (prev : Nat) : FieldVal → List FieldVal → List Nat
  | _, [] => []
  | fprev, f :: rest =>
      let q := roundUpN (prev + fieldSize st fprev) (fieldAlign st f) % U32
      q :: offsetsRest st q f rest

/-- The free function `offsets` (`src/src/TypeStore.cc`, lines 47-59): the
result starts at `{0}` and the loop runs for `i = 1` to `fields.size() - 1`. -/
def offsetsList (st : TypeStore) : List FieldVal → List Nat
  | [] => [0]
  | f :: rest => 0 :: offsetsRest st 0 f rest

/-- Installs a computed metatype for the entry matching the structural key,
modelling the in-place mutation performed through the reference returned by
`TypeStore::initialize_metatype` (`src/src/TypeStore.cc`, lines 61-70). -/
def updateMeta (st : TypeStore) (h : HeaderVal) (m : MetatypeVal) : TypeStore :=
  { st with
    entries := st.entries.map (fun e =>
      if structEq e.header h then { e with meta := some m } else e) }

/-- The error taxonomy surfaced by the store (`std::out_of_range` for an
unknown type, `std::logic_error` for a redefinition, and the spec's
undefined-type error for value operations on an undefined metatype). -/
inductive StoreError where
  | unknownType
  | alreadyDefined
  | undefinedType
deriving DecidableEq, Repr

/-- `TypeStore::define(StructHeader const*, fields)` (`src/src/TypeStore.cc`,
lines 72-98).  `initialize_metatype` (lines 61-70) fails with an
unknown-type error if the key is not interned and a logic error if the
metatype is already defined.  An empty field list caches size 0 and
alignment 1; otherwise the offsets come from `offsets`, the alignment is the
running maximum of the field alignments starting at 1, and the size is
`uint32(size(fields.back())) + offsets.back()` in 32-bit arithmetic. -/
def structMetatype (st : TypeStore) (fs : List FieldVal) : MetatypeVal :=
  if fs.isEmpty then
    ⟨0, 1, fs, []⟩
  else
    let offs := offsetsList st fs
    let a := fs.foldl (fun acc f => max acc (fieldAlign st f)) 1
    let lastSize := fieldSize st (fs.getLastD default)
    ⟨(lastSize % U32 + offs.getLastD 0) % U32, a % U32, fs, offs⟩

/-- The `define` overload for structs, split into the precondition checks of
`initialize_metatype` and the layout computation `structMetatype`. -/
def defineStruct (st : TypeStore) (t : HeaderVal) (fs : List FieldVal) :
    Except StoreError (TypeStore × MetatypeVal) :=
  match findEntry st t with
  | Option.none => .error .unknownType
  | some e =>
      match e.meta with
      | some _ => .error .alreadyDefined
      | Option.none =>
          .ok (updateMeta st t (structMetatype st fs), structMetatype st fs)

/-- `TypeStore::define(EnumHeader const*, fields)` (`src/src/TypeStore.cc`,
lines 100-133).  After `m.fields = std::move(fields)` the local vector
`fields` is left empty, and the branch at line 110 tests
`fields.size() == 1` on that moved-from vector (with no `else` joining it to
the empty-fields branch), so the no-tag single-variant layout is dead code:
every non-empty field list takes the tagged-layout branch.  For empty fields
the first two cache words pushed (and the only ones an accessor can reach for
a field-less metatype) are size 0 and alignment 1; the else branch of the
second `if` then pushes three further words that nothing reads. -/
def enumMetatype (st : TypeStore) (fs : List FieldVal) : MetatypeVal :=
  let movedFrom : List FieldVal := []
  if fs.isEmpty then
    ⟨0, 1, fs, []⟩
  else if movedFrom.length == 1 then
    ⟨fieldSize st (fs.getD 0 default) % U32,
     fieldAlign st (fs.getD 0 default) % U32, fs, []⟩
  else
    let s0 := fs.foldl (fun acc f => max acc (fieldSize st f)) 0
    let a0 := fs.foldl (fun acc f => max acc (fieldAlign st f)) 1
    let tagOff := roundUpN s0 2
    ⟨(tagOff + 2) % U32, max a0 2 % U32, fs, [0, tagOff % U32]⟩

/-- The `define` overload for enums, split into the precondition checks of
`initialize_metatype` and the layout computation `enumMetatype`. -/
def defineEnum (st : TypeStore) (t : HeaderVal) (fs : List FieldVal) :
    Except StoreError (TypeStore × MetatypeVal) :=
  match findEntry st t with
  | Option.none => .error .unknownType
  | some e =>
      match e.meta with
      | some _ => .error .alreadyDefined
      | Option.none =>
          .ok (updateMeta st t (enumMetatype st fs), enumMetatype st fs)

/-- `TypeStore::operator[]` (`src/src/TypeStore.cc`, lines 135-142): find the
entry by structural key and return its metatype — defined or not — or throw
`std::out_of_range` ("... is unknown") when the key is not interned.  The
returned value is the metatype slot as stored, so an interned-but-undefined
type yields `Option.none` rather than an error. -/
def opIndex (st : TypeStore) (h : HeaderVal) :
    Except StoreError (Option MetatypeVal) :=
  match findEntry st h with
  | some e => .ok e.meta
  | Option.none => .error .unknownType

/-- `TypeHeader::as<EnumHeader>` (`src/include/TypeHeader.h`, lines 71-75):
the cast succeeds iff the stored tag bits equal `enum_tag`, else it yields a
null pointer (`Option.none`). -/
def asEnumHeader (h : HeaderVal) : Option HeaderVal :=
  if headerTag h == enumTagV then some h else Option.none

/-- `TypeHeader::as<StructHeader>`: the cast succeeds iff the stored tag bits
equal `struct_tag`. -/
def asStructHeader (h : HeaderVal) : Option HeaderVal :=
  if headerTag h == structTagV then some h else Option.none

/-- One observable step of the `copy_initialize` dispatcher: a plain byte
copy of `n` bytes, or a delegation to the enum / struct implementation with
the header produced by the corresponding `as<...>` cast (`Option.none` is a
null header pointer, which the callee dereferences). -/
inductive CopyStep where
  | memcpyBytes (n : Nat)
  | enumCopy (h : Option HeaderVal)
  | structCopy (h : Option HeaderVal)
deriving DecidableEq

/-- `TypeStore::copy_initialize(TypeHeader const*, ...)`
(`src/src/TypeStore.cc`, lines 254-265): a switch on the header tag.  The
`none_tag` case returns; the `builtin_tag` case performs
`memcpy(target, source, size(h))` and then — lacking a `break` — falls
through into the `enum_tag` case, which delegates to the enum implementation
with `h->as<EnumHeader>()`; the `enum_tag` and `struct_tag` cases delegate
and return.  Tag values outside the four enumerators fall off the switch. -/
def copyInitializeSteps (st : TypeStore) (h : HeaderVal) : List CopyStep :=
  match headerTag h with
  | 0 => []
  | 1 => [.memcpyBytes (sizeOfHeader st h), .enumCopy (asEnumHeader h)]
  | 3 => [.enumCopy (asEnumHeader h)]
  | 2 => [.structCopy (asStructHeader h)]
  | _ => []

/-- The byte count of the buffer provided by
`TypeStore::with_temporary_allocation` (`src/include/TypeStore.h`, line 362):
`size(type)` when `count == 1`, else `stride(type) * count`. -/
def temporaryAllocationSize (st : TypeStore) (h : HeaderVal) (count : Nat) : Nat :=
  if count == 1 then sizeOfHeader st h else strideOfHeader st h * count

/-- The base address handed to `action` by
`TypeStore::with_temporary_allocation` (`src/include/TypeStore.h`, lines
368-371) when the stack buffer starts at address `b` and the type's alignment
is `a`: `x = a - 1; b += b & x`. -/
def temporaryBufferBase (b : Nat) (a : Nat) : Nat :=
  b + (b &&& (a - 1))

/-- A store with no interned headers. -/
def emptyStore : TypeStore := ⟨[], 0⟩

/-- The argument list `[Int32, Int64]`, standing in for the interned `A`, `B`
of the claim about `Composite("Pair", [A, B])`. -/
def pairArgs : HeaderArgs := HeaderArgs.ofList [.builtin .i32, .builtin .i64]

/-- A store holding one interned builtin (`Int64`) whose metatype has been
declared but not defined. -/
def c6Store : TypeStore := ⟨[⟨0, .builtin .i64, Option.none⟩], 1⟩

/-- A store interning `Bool` (at address 0) and an enum header (at address
8), both still undefined: the stage for defining a single-variant enum. -/
def c5Store : TypeStore :=
  ⟨[⟨0, .builtin .boolean, Option.none⟩,
    ⟨8, mkEnumHeader 200 HeaderArgs.nil, Option.none⟩], 16⟩

/-- The enum header interned in `c5Store`. -/
def c5Enum : HeaderVal := mkEnumHeader 200 HeaderArgs.nil

/-- A store interning `Bool` (address 0), `Int64` (address 8), and an enum
header (address 16), all undefined: the stage for a two-variant enum. -/
def c4Store : TypeStore :=
  ⟨[⟨0, .builtin .boolean, Option.none⟩, ⟨8, .builtin .i64, Option.none⟩,
    ⟨16, mkEnumHeader 300 HeaderArgs.nil, Option.none⟩], 24⟩

/-- The enum header interned in `c4Store`. -/
def c4Enum : HeaderVal := mkEnumHeader 300 HeaderArgs.nil

/-- A store interning `Int64` (address 0) and a struct header (address 8),
both undefined: the stage for defining a one-field struct. -/
def c3Store : TypeStore :=
  ⟨[⟨0, .builtin .i64, Option.none⟩,
    ⟨8, mkStructHeader 400 HeaderArgs.nil, Option.none⟩], 16⟩

/-- The struct header interned in `c3Store`. -/
def c3Struct : HeaderVal := mkStructHeader 400 HeaderArgs.nil

/-- C10: for `a ≥ 0` and `b ≥ 1`, `round_up_to_nearest_multiple a b` is the
least multiple of `b` that is greater than or equal to `a` (hence `a` itself
when `a` is already a multiple of `b`). -/
theorem round_up_least_multiple (a b : Int) (ha : 0 ≤ a) (hb : 1 ≤ b) :
    b ∣ round_up_to_nearest_multiple a b ∧
    a ≤ round_up_to_nearest_multiple a b ∧
    ∀ c : Int, b ∣ c → a ≤ c → round_up_to_nearest_multiple a b ≤ c := by
  have hb0 : (0 : Int) < b := by omega
  have hbne : b ≠ 0 := by omega
  have hmod : Int.tmod a b = a % b := Int.tmod_eq_emod ha (by omega)
  have hdm : b * (a / b) + a % b = a := Int.ediv_add_emod a b
  have hr0 : 0 ≤ a % b := Int.emod_nonneg a hbne
  have hrb : a % b < b := Int.emod_lt_of_pos a hb0
  simp only [round_up_to_nearest_multiple, hmod]
  by_cases h : a % b = 0
  · rw [if_pos h]
    refine ⟨Int.dvd_of_emod_eq_zero h, le_refl a, fun c _ hac => hac⟩
  · rw [if_neg h, if_neg (by omega)]
    have h1 : 1 ≤ a % b := by omega
    have hform : a + (b - a % b) = b * (a / b + 1) := by
      have : b * (a / b + 1) = b * (a / b) + b := by ring
      omega
    refine ⟨⟨a / b + 1, hform⟩, by omega, ?_⟩
    intro c hcd hac
    obtain ⟨k, hk⟩ := hcd
    have h2 : b * (a / b) < b * k := by omega
    have h3 : a / b < k := lt_of_mul_lt_mul_left h2 (le_of_lt hb0)
    have h4 : a / b + 1 ≤ k := by omega
    have h5 : b * (a / b + 1) ≤ b * k :=
      mul_le_mul_of_nonneg_left h4 (le_of_lt hb0)
    omega

/-- Witness for C10 at `a = 5`, `b = 3`: the result is the multiple 6. -/
theorem round_up_least_multiple_witness :
    (3 : Int) ∣ round_up_to_nearest_multiple 5 3 ∧
    (5 : Int) ≤ round_up_to_nearest_multiple 5 3 ∧
    round_up_to_nearest_multiple 5 3 ≤ 6 :=
  ⟨(round_up_least_multiple 5 3 (by decide) (by decide)).1,
   (round_up_least_multiple 5 3 (by decide) (by decide)).2.1,
   (round_up_least_multiple 5 3 (by decide) (by decide)).2.2 6 ⟨2, by decide⟩
     (by decide)⟩

/-- The bits of the constant `1` in `Field`'s packing. -/
theorem one_testBit (i : Nat) : (1 : Nat).testBit i = decide (i = 0) := by
  cases i with
  | zero => simp
  | succ n => simp [Nat.testBit_succ]

/-- The bits of the packed boolean `out_of_line ? 1 : 0`. -/
theorem bool_bit_testBit (o : Bool) (i : Nat) :
    (if o then (1 : Nat) else 0).testBit i = (o && decide (i = 0)) := by
  cases o with
  | false => simp
  | true => simp [one_testBit]

/-- The bits of the mask `~1` at 64-bit width. -/
theorem mask_testBit (i : Nat) :
    ((2 : Nat) ^ 64 - 2).testBit i = (decide (0 < i) && decide (i < 64)) := by
  have h : (2 : Nat) ^ 64 - 2 = (2 ^ 64 - 1) ^^^ 1 := by decide
  rw [h, Nat.testBit_xor, Nat.testBit_two_pow_sub_one, one_testBit]
  by_cases h0 : i = 0
  · subst h0; simp
  · have hpos : 0 < i := Nat.pos_of_ne_zero h0
    by_cases h64 : i < 64 <;> simp [h0, h64, hpos]

/-- C9: for every 64-bit type-header address with a clear least-significant
bit and every boolean, the packed `Field` round-trips: `Field(t, o).type()`
recovers `t` and `Field(t, o).out_of_line()` recovers `o`. -/
theorem field_pack_roundtrip (t : Nat) (ht : t < 2 ^ 64) (he : t % 2 = 0)
    (o : Bool) :
    fieldTypeOf (fieldRawValue t o) = t ∧
    fieldOutOfLineOf (fieldRawValue t o) = o := by
  constructor
  · apply Nat.eq_of_testBit_eq
    intro i
    rw [fieldTypeOf, fieldRawValue, Nat.testBit_land, Nat.testBit_lor,
      mask_testBit, bool_bit_testBit]
    by_cases h0 : i = 0
    · subst h0
      simp [Nat.testBit_zero, he]
    · have hpos : 0 < i := Nat.pos_of_ne_zero h0
      by_cases h64 : i < 64
      · simp [h0, h64, hpos]
      · have hbig : t.testBit i = false :=
          Nat.testBit_lt_two_pow
            (lt_of_lt_of_le ht (Nat.pow_le_pow_right (by norm_num)
              (Nat.le_of_not_lt h64)))
        simp [h0, h64, hbig]
  · rw [fieldOutOfLineOf, fieldRawValue]
    have hbit : ((t ||| if o then 1 else 0) &&& 1) = (if o then 1 else 0) := by
      apply Nat.eq_of_testBit_eq
      intro i
      rw [Nat.testBit_land, Nat.testBit_lor, one_testBit, bool_bit_testBit]
      by_cases h0 : i = 0
      · subst h0
        simp [Nat.testBit_zero, he]
      · simp [h0]
    rw [hbit]
    cases o <;> simp

/-- Witness for C9 at `t = 8`, `o = true`. -/
theorem field_pack_roundtrip_witness :
    8 % 2 = 0 ∧ fieldTypeOf (fieldRawValue 8 true) = 8 ∧
    fieldOutOfLineOf (fieldRawValue 8 true) = true :=
  ⟨by decide, (field_pack_roundtrip 8 (by decide) (by decide) true).1,
   (field_pack_roundtrip 8 (by decide) (by decide) true).2⟩

/-- C8 (evaluation at the failing input): for a stack buffer starting at
address 13 and a type of alignment 8, the adjustment `b += b & (a - 1)` of
`with_temporary_allocation` hands `action` the address 18, which is not a
multiple of 8 — the adjustment adds `b & x` instead of the distance
`(a - (b & x)) & x` to the next multiple. -/
theorem temporary_buffer_misaligned :
    temporaryBufferBase 13 8 = 18 ∧ temporaryBufferBase 13 8 % 8 = 2 := by
  decide

/-- C7 (evaluation at the failing input): on a builtin header (`Int64`) the
`copy_initialize` dispatcher performs the 8-byte copy and then — the
`builtin_tag` case lacking a `break` — falls through into the `enum_tag`
case, delegating to the enum implementation with the null header produced by
`as<EnumHeader>()`; the claimed behaviour is the byte copy alone. -/
theorem builtin_copy_falls_through :
    copyInitializeSteps emptyStore (.builtin .i64) =
      [.memcpyBytes 8, .enumCopy Option.none] ∧
    [CopyStep.memcpyBytes 8, .enumCopy Option.none] ≠
      [CopyStep.memcpyBytes 8] := by
  exact ⟨rfl, by simp⟩

/-- C1 (evaluation at the failing input): the `CompositeHeader` constructor
stores `struct_tag` regardless of its template role, so
`Enum("Pair", [A, B])` carries `struct_tag` and compares structurally equal
to `Struct("Pair", [A, B])` — the claim says a struct header is never equal
to an enum header with the same name and arguments. -/
theorem struct_header_equals_enum_header :
    headerTag (mkEnumHeader 100 pairArgs) = structTagV ∧
    structEq (mkStructHeader 100 pairArgs) (mkEnumHeader 100 pairArgs) = true := by
  exact ⟨rfl, rfl⟩

/-- C6 (counterexample): in a store where `Int64` is interned but its
metatype is not yet defined, `operator[]` succeeds and returns the undefined
metatype slot — it does not fail with an undefined-type error as the claim
states. -/
theorem lookup_undefined_returns_ok :
    findEntry c6Store (.builtin .i64) = some ⟨0, .builtin .i64, Option.none⟩ ∧
    opIndex c6Store (.builtin .i64) = .ok Option.none ∧
    opIndex c6Store (.builtin .i64) ≠ .error .undefinedType := by
  refine ⟨rfl, rfl, ?_⟩
  intro hcontra
  simp [opIndex, findEntry, c6Store, structEq] at hcontra

/-- C6 (amended): `operator[]` succeeds exactly on interned types — defined
or not — returning the stored metatype slot, and fails with the unknown-type
error exactly when the type is not interned; it never raises an
undefined-type error (value operations check definedness themselves). -/
theorem lookup_characterization (st : TypeStore) (h : HeaderVal) :
    ((opIndex st h).isOk = true ↔ internedB st h = true) ∧
    opIndex st h ≠ .error .undefinedType ∧
    (∀ e, findEntry st h = some e → opIndex st h = .ok e.meta) ∧
    (findEntry st h = Option.none → opIndex st h = .error .unknownType) := by
  refine ⟨?_, ?_, ?_, ?_⟩
  · rw [opIndex, internedB, List.any_eq_true]
    cases hfind : findEntry st h with
    | none =>
        have hn : List.find? (fun e => structEq e.header h) st.entries =
            Option.none := hfind
        rw [List.find?_eq_none] at hn
        constructor
        · intro hcontra
          simp [Except.isOk, Except.toBool] at hcontra
        · intro ⟨x, hx, hpx⟩
          exact absurd hpx (hn x hx)
    | some e =>
        have hs : List.find? (fun e => structEq e.header h) st.entries =
            some e := hfind
        constructor
        · intro _
          exact ⟨e, List.mem_of_find?_eq_some hs,
            List.find?_some (p := fun (x : StoreEntry) => structEq x.header h) hs⟩
        · intro _
          rfl
  · rw [opIndex]
    cases hfind : findEntry st h with
    | none => intro hcontra; cases hcontra
    | some e => intro hcontra; cases hcontra
  · intro e hfind
    rw [opIndex, hfind]
  · intro hfind
    rw [opIndex, hfind]

/-- Witness for C6's amended claim at the interned-but-undefined store. -/
theorem lookup_characterization_witness :
    (opIndex c6Store (.builtin .i64)).isOk = true ∧
    opIndex c6Store (.builtin .i64) ≠ .error .undefinedType ∧
    opIndex c6Store (.builtin .i64) = .ok Option.none :=
  ⟨(lookup_characterization c6Store (.builtin .i64)).1.mpr (by rfl),
   (lookup_characterization c6Store (.builtin .i64)).2.1,
   (lookup_characterization c6Store (.builtin .i64)).2.2.1
     ⟨0, .builtin .i64, Option.none⟩ (by rfl)⟩

/-- Any binding visible through `lookupHeaderAt` survives a later `declare`:
the store only ever appends freshly interned headers. -/
theorem declare_preserves_lookup (st : TypeStore) (h3 : HeaderVal) (a : Nat)
    (v : HeaderVal) (hv : lookupHeaderAt st a = some v) :
    lookupHeaderAt (declare st h3).2 a = some v := by
  rw [declare]
  cases hfind : findEntry st h3 with
  | some e => exact hv
  | none =>
      rw [lookupHeaderAt] at hv ⊢
      simp only [List.find?_append]
      cases hfe : st.entries.find? (fun e => e.addr == a) with
      | none => rw [hfe] at hv; cases hv
      | some e => rw [hfe] at hv; simp [hfe, hv]

/-- A second `declare` of the same header returns the same pointer and
leaves the store untouched. -/
theorem declare_declare (st : TypeStore) (h : HeaderVal) :
    declare (declare st h).2 h = declare st h := by
  cases hfind : findEntry st h with
  | some e =>
      have h1 : declare st h = (e.addr, st) := by rw [declare, hfind]
      rw [h1]
      exact h1
  | none =>
      have h1 : declare st h =
          (st.nextAddr,
            ⟨st.entries ++ [⟨st.nextAddr, h, Option.none⟩], st.nextAddr + 1⟩) := by
        rw [declare, hfind]
      have hn : List.find? (fun e => structEq e.header h) st.entries =
          Option.none := hfind
      have hfind2 : findEntry
          (⟨st.entries ++ [⟨st.nextAddr, h, Option.none⟩], st.nextAddr + 1⟩ :
            TypeStore) h = some ⟨st.nextAddr, h, Option.none⟩ := by
        rw [findEntry]
        simp [List.find?_append, hn, List.find?, structEq_refl]
      have h2 : declare
          (⟨st.entries ++ [⟨st.nextAddr, h, Option.none⟩], st.nextAddr + 1⟩ :
            TypeStore) h =
          (st.nextAddr,
            ⟨st.entries ++ [⟨st.nextAddr, h, Option.none⟩], st.nextAddr + 1⟩) := by
        rw [declare, hfind2]
      rw [h1]
      exact h2

/-- C2: declaring two structurally equal headers returns the same canonical
pointer, the second `declare` performs no change to the store at all, and the
pointer remains bound to the same interned header across any later
`declare` (stability for the store's lifetime). -/
theorem declare_idempotent (st : TypeStore) (h1 h2 : HeaderVal)
    (h12 : structEq h1 h2 = true) :
    (declare (declare st h1).2 h2).1 = (declare st h1).1 ∧
    (declare (declare st h1).2 h2).2 = (declare st h1).2 ∧
    ∀ h3 a v, lookupHeaderAt (declare st h1).2 a = some v →
      lookupHeaderAt (declare (declare st h1).2 h3).2 a = some v := by
  have heq : h1 = h2 := (structEq_iff_eq h1 h2).mp h12
  subst heq
  exact ⟨congrArg Prod.fst (declare_declare st h1),
    congrArg Prod.snd (declare_declare st h1),
    fun h3 a v hv => declare_preserves_lookup _ h3 a v hv⟩

/-- The fold computing a running maximum never falls below its seed. -/
theorem foldl_max_seed_le {g : FieldVal → Nat} (l : List FieldVal) (a : Nat) :
    a ≤ l.foldl (fun acc x => max acc (g x)) a := by
  induction l generalizing a with
  | nil => exact le_refl a
  | cons x xs ih =>
      exact le_trans (le_max_left a (g x)) (ih (max a (g x)))

/-- Every list element is bounded by the running maximum. -/
theorem le_foldl_max_of_mem {g : FieldVal → Nat} (l : List FieldVal) (a : Nat)
    (f : FieldVal) (hf : f ∈ l) : g f ≤ l.foldl (fun acc x => max acc (g x)) a := by
  induction l generalizing a with
  | nil => cases hf
  | cons x xs ih =>
      rw [List.foldl_cons]
      rcases List.mem_cons.mp hf with heq | hmem
      · subst heq
        exact le_trans (le_max_right a (g f)) (foldl_max_seed_le xs (max a (g f)))
      · exact ih (max a (g x)) hmem

/-- The running maximum is the seed or is attained by a list element. -/
theorem foldl_max_eq_seed_or_mem {g : FieldVal → Nat} (l : List FieldVal) (a : Nat) :
    l.foldl (fun acc x => max acc (g x)) a = a ∨
    ∃ f ∈ l, l.foldl (fun acc x => max acc (g x)) a = g f := by
  induction l generalizing a with
  | nil => exact Or.inl rfl
  | cons x xs ih =>
      rw [List.foldl_cons]
      rcases ih (max a (g x)) with h | ⟨f, hf, hEq⟩
      · rcases le_total a (g x) with hle | hle
        · exact Or.inr ⟨x, List.mem_cons_self x xs, by rw [h, max_eq_right hle]⟩
        · exact Or.inl (by rw [h, max_eq_left hle])
      · exact Or.inr ⟨f, List.mem_cons_of_mem x hf, hEq⟩

/-- Shifting the seed of the running maximum out of the fold. -/
theorem foldl_max_max_seed {g : FieldVal → Nat} (l : List FieldVal) (a b : Nat) :
    l.foldl (fun acc x => max acc (g x)) (max a b) =
      max a (l.foldl (fun acc x => max acc (g x)) b) := by
  induction l generalizing b with
  | nil => rfl
  | cons x xs ih =>
      rw [List.foldl_cons, List.foldl_cons, max_assoc]
      exact ih (max b (g x))

/-- `round_up_to_nearest_multiple` at unsigned operands yields a multiple of
its second argument. -/
theorem roundUpN_mod_self (a b : Nat) (hb : 1 ≤ b) : roundUpN a b % b = 0 := by
  rw [roundUpN]
  by_cases h : a % b = 0
  · simp [h]
  · rw [if_neg h]
    have hd := Nat.div_add_mod a b
    have hlt : a % b < b := Nat.mod_lt a (by omega)
    have hform : a + (b - a % b) = b * (a / b + 1) := by
      have h2 : b * (a / b + 1) = b * (a / b) + b := by ring
      omega
    rw [hform]
    exact Nat.mul_mod_right b (a / b + 1)

/-- An upper bound on `round_up_to_nearest_multiple` at unsigned operands. -/
theorem roundUpN_le_add (a b : Nat) : roundUpN a b ≤ a + b := by
  rw [roundUpN]
  by_cases h : a % b = 0
  · simp [h]
  · rw [if_neg h]
    generalize a % b = r
    omega

/-- The last entry of a list through `getD` at `length - 1`. -/
theorem getLastD_eq_getD_length_sub_one {α : Type} (l : List α) (d : α) :
    l.getLastD d = l.getD (l.length - 1) d := by
  rw [List.getLastD_eq_getLast?, List.getLast?_eq_getElem?,
    List.getD_eq_getElem?_getD]

/-- A `getD` at an in-range index is a member of the list. -/
theorem getD_mem_of_lt {α : Type} (l : List α) (n : Nat) (d : α)
    (h : n < l.length) : l.getD n d ∈ l := by
  rw [List.getD_eq_getElem?_getD, List.getElem?_eq_getElem h]
  exact List.getElem_mem h

/-- The offsets loop produces one entry per remaining field. -/
theorem offsetsRest_length (st : TypeStore) :
    ∀ (rest : List FieldVal) (prev : Nat) (fprev : FieldVal),
      (offsetsRest st prev fprev rest).length = rest.length
  | [], _, _ => rfl
  | f :: rest, prev, fprev => by
      rw [offsetsRest, List.length_cons, List.length_cons,
        offsetsRest_length st rest]

/-- The defining recurrence of the offsets loop, read off entry by entry:
entry `i` is the 32-bit cast of `round_up` applied to the previous entry plus
the previous field's size, at the current field's alignment. -/
theorem offsetsRest_getD (st : TypeStore) :
    ∀ (rest : List FieldVal) (prev : Nat) (fprev : FieldVal) (i : Nat),
      i < rest.length →
      (offsetsRest st prev fprev rest).getD i 0 =
        roundUpN ((prev :: offsetsRest st prev fprev rest).getD i 0 +
            fieldSize st ((fprev :: rest).getD i default))
          (fieldAlign st (rest.getD i default)) % U32
  | [], _, _, i, hi => absurd hi (by simp)
  | f :: rest, prev, fprev, 0, _ => by
      rw [offsetsRest]
      simp
  | f :: rest, prev, fprev, i + 1, hi => by
      have hi' : i < rest.length := by
        simpa using hi
      have ih := offsetsRest_getD st rest
        (roundUpN (prev + fieldSize st fprev) (fieldAlign st f) % U32) f i hi'
      rw [offsetsRest]
      simpa using ih

/-- The full offset sequence has one entry per field. -/
theorem offsetsList_length (st : TypeStore) (f : FieldVal) (rest : List FieldVal) :
    (offsetsList st (f :: rest)).length = (f :: rest).length := by
  rw [offsetsList, List.length_cons, List.length_cons, offsetsRest_length st rest]

/-- The first offset is 0. -/
theorem offsetsList_getD_zero (st : TypeStore) (fs : List FieldVal) :
    (offsetsList st fs).getD 0 0 = 0 := by
  cases fs <;> rfl

/-- The claim's recurrence over the full offset sequence, still carrying the
source's 32-bit cast. -/
theorem offsetsList_getD_succ (st : TypeStore) (fs : List FieldVal) (i : Nat)
    (h1 : 1 ≤ i) (hi : i < fs.length) :
    (offsetsList st fs).getD i 0 =
      roundUpN ((offsetsList st fs).getD (i - 1) 0 +
          fieldSize st (fs.getD (i - 1) default))
        (fieldAlign st (fs.getD i default)) % U32 := by
  cases fs with
  | nil => simp at hi
  | cons f rest =>
      cases i with
      | zero => omega
      | succ j =>
          have hj : j < rest.length := by
            simpa using hi
          have hrec := offsetsRest_getD st rest 0 f j hj
          rw [offsetsList]
          simpa using hrec

theorem declare_idempotent_witness :
    structEq (.builtin .i64) (.builtin .i64) = true ∧
    (declare (declare emptyStore (.builtin .i64)).2 (.builtin .i64)).1 =
      (declare emptyStore (.builtin .i64)).1 ∧
    (declare (declare emptyStore (.builtin .i64)).2 (.builtin .i64)).2 =
      (declare emptyStore (.builtin .i64)).2 ∧
    lookupHeaderAt
      (declare (declare emptyStore (.builtin .i64)).2 (.builtin .boolean)).2 0 =
      some (.builtin .i64) :=
  ⟨rfl,
   (declare_idempotent emptyStore (.builtin .i64) (.builtin .i64) rfl).1,
   (declare_idempotent emptyStore (.builtin .i64) (.builtin .i64) rfl).2.1,
   (declare_idempotent emptyStore (.builtin .i64) (.builtin .i64) rfl).2.2
     (.builtin .boolean) 0 (.builtin .i64) (by rfl)⟩

/-- Unfolding of the struct layout computation on a non-empty field list. -/
theorem structMetatype_cons (st : TypeStore) (f : FieldVal)
    (rest : List FieldVal) :
    structMetatype st (f :: rest) =
      ⟨(fieldSize st ((f :: rest).getLastD default) % U32 +
          (offsetsList st (f :: rest)).getLastD 0) % U32,
       (f :: rest).foldl (fun acc x => max acc (fieldAlign st x)) 1 % U32,
       f :: rest, offsetsList st (f :: rest)⟩ := rfl

/-- Unfolding of the enum layout computation on a non-empty field list: the
dead single-variant branch is skipped and the tagged layout applies. -/
theorem enumMetatype_cons (st : TypeStore) (f : FieldVal)
    (rest : List FieldVal) :
    enumMetatype st (f :: rest) =
      ⟨(roundUpN ((f :: rest).foldl (fun acc x => max acc (fieldSize st x)) 0) 2
          + 2) % U32,
       max ((f :: rest).foldl (fun acc x => max acc (fieldAlign st x)) 1) 2 % U32,
       f :: rest,
       [0, roundUpN
         ((f :: rest).foldl (fun acc x => max acc (fieldSize st x)) 0) 2 % U32]⟩ :=
  rfl

/-- C4: defining an enum with at least two variant fields yields the tagged
layout: `size = round_up(max variant size, 2) + 2`,
`alignment = max(max variant alignment, 2)`, and
`offsets = [0, tag_offset]` with `tag_offset = round_up(max variant size, 2)`
(under the hypotheses that the interned header is still undefined and the
computed 32-bit cache words do not overflow). -/
theorem enum_layout (st : TypeStore) (t : HeaderVal) (fs : List FieldVal)
    (e : StoreEntry) (hfind : findEntry st t = some e)
    (hundef : e.meta = Option.none) (hk : 2 ≤ fs.length)
    (hfits : roundUpN (fs.foldl (fun acc f => max acc (fieldSize st f)) 0) 2 + 2
      < U32)
    (hfita : max (fs.foldl (fun acc f => max acc (fieldAlign st f)) 0) 2 < U32) :
    defineEnum st t fs =
      .ok (updateMeta st t (enumMetatype st fs), enumMetatype st fs) ∧
    (enumMetatype st fs).size =
      roundUpN (fs.foldl (fun acc f => max acc (fieldSize st f)) 0) 2 + 2 ∧
    (enumMetatype st fs).alignment =
      max (fs.foldl (fun acc f => max acc (fieldAlign st f)) 0) 2 ∧
    (enumMetatype st fs).offsets =
      [0, roundUpN (fs.foldl (fun acc f => max acc (fieldSize st f)) 0) 2] := by
  obtain ⟨ea, eh, em⟩ := e
  simp only at hundef
  subst hundef
  refine ⟨by rw [defineEnum, hfind], ?_⟩
  cases fs with
  | nil => simp at hk
  | cons f rest =>
      rw [enumMetatype_cons]
      dsimp only
      have hshift := foldl_max_max_seed (g := fun x => fieldAlign st x)
        (f :: rest) 1 0
      simp only [Nat.max_zero] at hshift
      have hmax : max ((f :: rest).foldl (fun acc x => max acc (fieldAlign st x)) 1) 2 =
          max ((f :: rest).foldl (fun acc x => max acc (fieldAlign st x)) 0) 2 := by
        rw [hshift]
        omega
      have htag : roundUpN
          ((f :: rest).foldl (fun acc x => max acc (fieldSize st x)) 0) 2 < U32 := by
        omega
      refine ⟨?_, ?_, ?_⟩
      · exact Nat.mod_eq_of_lt hfits
      · rw [hmax]
        exact Nat.mod_eq_of_lt hfita
      · rw [Nat.mod_eq_of_lt htag]

/-- Witness for C4: a two-variant enum over `Bool` and `Int64` fields gets
size `round_up(8, 2) + 2 = 10`, alignment `max(8, 2) = 8`, and offsets
`[0, 8]`. -/
theorem enum_layout_witness :
    defineEnum c4Store c4Enum [⟨0, false⟩, ⟨8, false⟩] =
      .ok (updateMeta c4Store c4Enum (enumMetatype c4Store [⟨0, false⟩, ⟨8, false⟩]),
           enumMetatype c4Store [⟨0, false⟩, ⟨8, false⟩]) ∧
    (enumMetatype c4Store [⟨0, false⟩, ⟨8, false⟩]).size = 10 ∧
    (enumMetatype c4Store [⟨0, false⟩, ⟨8, false⟩]).alignment = 8 ∧
    (enumMetatype c4Store [⟨0, false⟩, ⟨8, false⟩]).offsets = [0, 8] :=
  ⟨(enum_layout c4Store c4Enum [⟨0, false⟩, ⟨8, false⟩]
      ⟨16, c4Enum, Option.none⟩ rfl rfl (by decide) (by decide) (by decide)).1,
   ((enum_layout c4Store c4Enum [⟨0, false⟩, ⟨8, false⟩]
      ⟨16, c4Enum, Option.none⟩ rfl rfl (by decide) (by decide) (by decide)).2.1).trans
     (by decide),
   ((enum_layout c4Store c4Enum [⟨0, false⟩, ⟨8, false⟩]
      ⟨16, c4Enum, Option.none⟩ rfl rfl (by decide) (by decide) (by decide)).2.2.1).trans
     (by decide),
   ((enum_layout c4Store c4Enum [⟨0, false⟩, ⟨8, false⟩]
      ⟨16, c4Enum, Option.none⟩ rfl rfl (by decide) (by decide) (by decide)).2.2.2).trans
     (by decide)⟩

/-- C5 (evaluation at the failing input): defining an enum with exactly one
variant — a `Bool` field of size 1 and alignment 1 — produces the tagged
layout `size = 4`, `alignment = 2`, `offsets = [0, 2]` instead of the
claimed variant layout `size = 1`, `alignment = 1`, one field at offset 0:
the no-tag branch tests the moved-from `fields` vector and never runs. -/
theorem enum_single_variant_still_tagged :
    fieldSize c5Store ⟨0, false⟩ = 1 ∧
    fieldAlign c5Store ⟨0, false⟩ = 1 ∧
    enumMetatype c5Store [⟨0, false⟩] = ⟨4, 2, [⟨0, false⟩], [0, 2]⟩ ∧
    defineEnum c5Store c5Enum [⟨0, false⟩] =
      .ok (updateMeta c5Store c5Enum ⟨4, 2, [⟨0, false⟩], [0, 2]⟩,
           ⟨4, 2, [⟨0, false⟩], [0, 2]⟩) :=
  ⟨rfl, rfl, rfl, rfl⟩

/-- C3: defining a struct over a non-empty field list satisfies the claimed
layout equations: `offsets[0] = 0`, the `round_up` recurrence between
consecutive offsets, `size = offsets[last] + size(last field)`, the alignment
is the maximum of the field alignments, and every offset is a multiple of
its field's alignment (hypotheses: the interned header is undefined, field
alignments are at least 1, and the computed 32-bit cache words do not
overflow). -/
theorem struct_layout (st : TypeStore) (t : HeaderVal) (fs : List FieldVal)
    (e : StoreEntry) (hfind : findEntry st t = some e)
    (hundef : e.meta = Option.none) (hne : fs ≠ [])
    (halign : ∀ f ∈ fs, 1 ≤ fieldAlign st f)
    (hfit : ∀ i, 1 ≤ i → i < fs.length →
      roundUpN ((offsetsList st fs).getD (i - 1) 0 +
          fieldSize st (fs.getD (i - 1) default))
        (fieldAlign st (fs.getD i default)) < U32)
    (hfitsize : (offsetsList st fs).getD (fs.length - 1) 0 +
      fieldSize st (fs.getLastD default) < U32)
    (hfita : fs.foldl (fun acc f => max acc (fieldAlign st f)) 1 < U32) :
    defineStruct st t fs =
      .ok (updateMeta st t (structMetatype st fs), structMetatype st fs) ∧
    (structMetatype st fs).offsets = offsetsList st fs ∧
    (structMetatype st fs).offsets.length = fs.length ∧
    (structMetatype st fs).offsets.getD 0 0 = 0 ∧
    (∀ i, 1 ≤ i → i < fs.length →
      (structMetatype st fs).offsets.getD i 0 =
        roundUpN ((structMetatype st fs).offsets.getD (i - 1) 0 +
            fieldSize st (fs.getD (i - 1) default))
          (fieldAlign st (fs.getD i default))) ∧
    (structMetatype st fs).size =
      (structMetatype st fs).offsets.getD (fs.length - 1) 0 +
        fieldSize st (fs.getLastD default) ∧
    (∀ f ∈ fs, fieldAlign st f ≤ (structMetatype st fs).alignment) ∧
    (∃ f ∈ fs, (structMetatype st fs).alignment = fieldAlign st f) ∧
    (∀ i, i < fs.length →
      (structMetatype st fs).offsets.getD i 0 %
        fieldAlign st (fs.getD i default) = 0) := by
  obtain ⟨ea, eh, em⟩ := e
  simp only at hundef
  subst hundef
  refine ⟨by rw [defineStruct, hfind], ?_⟩
  cases fs with
  | nil => exact absurd rfl hne
  | cons f rest =>
      rw [structMetatype_cons]
      dsimp only
      have hlen : (offsetsList st (f :: rest)).length = (f :: rest).length :=
        offsetsList_length st f rest
      have hrec : ∀ i, 1 ≤ i → i < (f :: rest).length →
          (offsetsList st (f :: rest)).getD i 0 =
            roundUpN ((offsetsList st (f :: rest)).getD (i - 1) 0 +
                fieldSize st ((f :: rest).getD (i - 1) default))
              (fieldAlign st ((f :: rest).getD i default)) := by
        intro i h1 hi
        rw [offsetsList_getD_succ st (f :: rest) i h1 hi,
          Nat.mod_eq_of_lt (hfit i h1 hi)]
      have hfold1 : (f :: rest).foldl (fun acc x => max acc (fieldAlign st x)) 1
          % U32 = (f :: rest).foldl (fun acc x => max acc (fieldAlign st x)) 1 :=
        Nat.mod_eq_of_lt hfita
      refine ⟨rfl, hlen, offsetsList_getD_zero st (f :: rest), hrec, ?_, ?_, ?_, ?_⟩
      · -- size equation
        rw [getLastD_eq_getD_length_sub_one (offsetsList st (f :: rest)) 0, hlen]
        have hlast : fieldSize st ((f :: rest).getLastD default) < U32 := by
          omega
        rw [Nat.mod_eq_of_lt hlast, Nat.mod_eq_of_lt (by omega)]
        omega
      · intro g hg
        rw [hfold1]
        exact le_foldl_max_of_mem (f :: rest) 1 g hg
      · rw [hfold1]
        rcases foldl_max_eq_seed_or_mem (g := fun x => fieldAlign st x)
            (f :: rest) 1 with h | ⟨g, hg, hEq⟩
        · refine ⟨f, List.mem_cons_self f rest, ?_⟩
          have h1 : 1 ≤ fieldAlign st f := halign f (List.mem_cons_self f rest)
          have h2 : fieldAlign st f ≤
              (f :: rest).foldl (fun acc x => max acc (fieldAlign st x)) 1 :=
            le_foldl_max_of_mem (f :: rest) 1 f (List.mem_cons_self f rest)
          omega
        · exact ⟨g, hg, hEq⟩
      · intro i hi
        cases Nat.eq_zero_or_pos i with
        | inl h0 =>
            subst h0
            rw [offsetsList_getD_zero st (f :: rest)]
            exact Nat.zero_mod _
        | inr hpos =>
            rw [hrec i hpos hi]
            exact roundUpN_mod_self _ _
              (halign ((f :: rest).getD i default)
                (getD_mem_of_lt (f :: rest) i default hi))

/-- Witness for C3: a struct with the single in-line `Int64` field has
offsets `[0]`, size 8, and alignment 8. -/
theorem struct_layout_witness :
    defineStruct c3Store c3Struct [⟨0, false⟩] =
      .ok (updateMeta c3Store c3Struct (structMetatype c3Store [⟨0, false⟩]),
           structMetatype c3Store [⟨0, false⟩]) ∧
    (structMetatype c3Store [⟨0, false⟩]).offsets.getD 0 0 = 0 ∧
    (structMetatype c3Store [⟨0, false⟩]).size = 8 ∧
    fieldAlign c3Store ⟨0, false⟩ ≤ (structMetatype c3Store [⟨0, false⟩]).alignment ∧
    (structMetatype c3Store [⟨0, false⟩]).offsets.getD 0 0 %
      fieldAlign c3Store (([⟨0, false⟩] : List FieldVal).getD 0 default) = 0 :=
  ⟨(struct_layout c3Store c3Struct [⟨0, false⟩] ⟨8, c3Struct, Option.none⟩
      rfl rfl (by decide) (by decide)
      (fun i h1 hi => absurd (Nat.lt_of_lt_of_le hi h1) (Nat.lt_irrefl i))
      (by decide) (by decide)).1,
   (struct_layout c3Store c3Struct [⟨0, false⟩] ⟨8, c3Struct, Option.none⟩
      rfl rfl (by decide) (by decide)
      (fun i h1 hi => absurd (Nat.lt_of_lt_of_le hi h1) (Nat.lt_irrefl i))
      (by decide) (by decide)).2.2.2.1,
   ((struct_layout c3Store c3Struct [⟨0, false⟩] ⟨8, c3Struct, Option.none⟩
      rfl rfl (by decide) (by decide)
      (fun i h1 hi => absurd (Nat.lt_of_lt_of_le hi h1) (Nat.lt_irrefl i))
      (by decide) (by decide)).2.2.2.2.2.1).trans (by decide),
   (struct_layout c3Store c3Struct [⟨0, false⟩] ⟨8, c3Struct, Option.none⟩
      rfl rfl (by decide) (by decide)
      (fun i h1 hi => absurd (Nat.lt_of_lt_of_le hi h1) (Nat.lt_irrefl i))
      (by decide) (by decide)).2.2.2.2.2.2.1 ⟨0, false⟩ (by decide),
   (struct_layout c3Store c3Struct [⟨0, false⟩] ⟨8, c3Struct, Option.none⟩
      rfl rfl (by decide) (by decide)
      (fun i h1 hi => absurd (Nat.lt_of_lt_of_le hi h1) (Nat.lt_irrefl i))
      (by decide) (by decide)).2.2.2.2.2.2.2.2 0 (by decide)⟩

end Xst
